import Mathlib

/-!
Verification of the argument-spec reconciliation core of `argh`
(`src/argh/assembling.py`): signature inference, declaration merging,
type/action guessing and the associated error paths.

Modelling conventions:

* Python dictionaries that represent one argument specification
  (the dicts produced by `_get_args_from_signature` and by the `@arg`
  decorator) are modelled by the structure `ArgSpec`.  A field whose
  value is `none` models a key that is absent from the dict.
* Python runtime values that can occur as `default` / `choices` entries
  in this code base are modelled by the inductive `Value`; the Python value
  `None` is the explicit constructor `Value.vnone` (so a present key
  holding `None` is `some Value.vnone`).  Python runtime types (the
  results of `type(value)`) are modelled by `Ty`.
* `inspect.getfullargspec` data (obtained via `argh.utils.get_arg_spec`,
  a helper that is not part of the sources under verification) is
  modelled by the structure `FuncSpec`, and a decorated function by
  `Func`.
* Exceptions are modelled with `Except PyError`; `PyError` distinguishes
  `ValueError` (raised by `_is_positional` and by argparse internals)
  from `AssemblingError` (raised by `set_default_command`).
* Python `str.replace("_", "-")`, `str.replace("-", "_")` and
  `str.lstrip("-")` with single-character patterns are modelled
  character-wise over `String.data`.
* Parameter names are Python identifiers, hence non-empty strings;
  helper functions that read the first character of a name
  (`name[0]` in Python) use `List.headD` with an arbitrary fallback
  character that is never exercised on such inputs.
-/

/-- Python runtime values occurring as argument defaults / choices. -/
inductive Value where
  | vnone : Value
  | vbool : Bool → Value
  | vint : Int → Value
  | vstr : String → Value
  deriving Repr, DecidableEq

/-- Python runtime types, i.e. possible results of `type(value)`. -/
inductive Ty where
  | tNoneType : Ty
  | tbool : Ty
  | tint : Ty
  | tstr : Ty
  deriving Repr, DecidableEq

/-- `type(value)` for the modelled values. -/
def typeOf : Value → Ty
  | Value.vnone => Ty.tNoneType
  | Value.vbool _ => Ty.tbool
  | Value.vint _ => Ty.tint
  | Value.vstr _ => Ty.tstr

/-- One argument specification: the dict handed to
`parser.add_argument()`.  A `none` field models an absent key. -/
structure ArgSpec where
  option_strings : List String
  default : Option Value := none
  required : Option Bool := none
  type : Option Ty := none
  action : Option String := none
  choices : Option (List Value) := none
  help : Option String := none
  nargs : Option String := none
  deriving Repr, DecidableEq

/-- The relevant fields of `inspect.getfullargspec(function)`:
positional-or-keyword parameter names in declaration order, their
trailing defaults, keyword-only names and defaults, and the variadic
collectors.

Modelled from the spec: the extraction helper (`argh.utils.get_arg_spec`)
is not among the sources; the spec describes its output as the
"Function Signature Facts": ordered parameter names, which have
defaults, which are keyword-only, presence of a variadic-positional
collector and of a variadic-keyword collector. -/
structure FuncSpec where
  args : List String := []
  defaults : List Value := []
  kwonlyargs : List String := []
  kwonlydefaults : List (String × Value) := []
  varargs : Option String := none
  varkw : Option String := none
  deriving Repr, DecidableEq

/-- A Python callable as seen by `set_default_command`: its `__name__`,
the `ATTR_EXPECTS_NAMESPACE_OBJECT` marker, its introspected signature,
its string-valued `__annotations__` entries (non-string annotations are
filtered out by the source) and the `ATTR_ARGS` list set by `@arg`
decorators. -/
structure Func where
  name : String
  expects_namespace_object : Bool := false
  spec : FuncSpec
  annotations : List (String × String) := []
  declared_args : List ArgSpec := []
  deriving Repr, DecidableEq

/-- First-match association-list lookup, modelling Python dict access
for dicts built without duplicate keys. -/
def assoc_lookup {α : Type} : List (String × α) → String → Option α
  | [], _ => none
  | (k, v) :: rest, name => if k = name then some v else assoc_lookup rest name

/-- Python `s[0]`; on the inputs of this code `s` is a non-empty identifier,
so the fallback character is never exercised. -/
def first_char (s : String) : Char := s.data.headD 'A'

/-- Python `s.startswith("-")` (`False` on the empty string). -/
def startswith_dash (s : String) : Bool := s.data.head? = some '-'

/-- Python `s.replace("_", "-")`, character-wise. -/
def underscores_to_dashes (s : String) : String :=
  ⟨s.data.map (fun c => if c = '_' then '-' else c)⟩

/-- Python `s.replace("-", "_")`, character-wise. -/
def dashes_to_underscores (s : String) : String :=
  ⟨s.data.map (fun c => if c = '-' then '_' else c)⟩

/-- Python `s.lstrip("-")`. -/
def lstrip_dashes (s : String) : String :=
  ⟨s.data.dropWhile (fun c => c = '-')⟩

/-- The default-value mapping of `_get_args_from_signature`:
`dict(zip(*[reversed(x) for x in (spec.args, spec.defaults or [])]))`
maps the trailing parameters to their defaults, then
`defaults.update(kwonlydefaults)` lets keyword-only defaults win. -/
def sig_default (spec : FuncSpec) (name : String) : Option Value :=
  match assoc_lookup spec.kwonlydefaults name with
  | some v => some v
  | none => assoc_lookup (spec.args.reverse.zip spec.defaults.reverse) name

/-- Line 106 of assembling.py, applied to one name-or-flag:
`x.replace("_", "-") if x.startswith("-") else x`. -/
def dashify (x : String) : String :=
  if startswith_dash x then underscores_to_dashes x else x

/-- The first letters of all parameters
(`chars = [a[0] for a in spec.args + kwonly]`). -/
def sig_first_chars (spec : FuncSpec) : List Char :=
  (spec.args ++ spec.kwonlyargs).map first_char

/-- The conflicting short-option letters: those occurring more than once
among the first letters of all parameters. -/
def conflicting_opts (spec : FuncSpec) : List Char :=
  (sig_first_chars spec).filter (fun c => 1 < (sig_first_chars spec).count c)

/-- The spec inferred for one positional-or-keyword or keyword-only
parameter (one iteration of the `for name in spec.args + kwonly` loop). -/
def infer_one (function : Func) (name : String) : ArgSpec :=
  let spec := function.spec
  let helpv := assoc_lookup function.annotations name
  let d := sig_default spec name
  if d.isSome ∨ name ∈ spec.kwonlyargs then
    let flags :=
      if (conflicting_opts spec).contains (first_char name) then
        [String.mk ['-', '-'] ++ name]
      else
        [String.mk ['-', first_char name], String.mk ['-', '-'] ++ name]
    { option_strings := flags.map dashify
      default := d
      required := if d.isSome then none else some true
      help := helpv }
  else
    { option_strings := [name].map dashify
      help := helpv }

/-- `_get_args_from_signature(function)`, collected into a list. -/
def _get_args_from_signature (function : Func) : List ArgSpec :=
  if function.expects_namespace_object then []
  else
    let spec := function.spec
    ((spec.args ++ spec.kwonlyargs).map (infer_one function)) ++
      (match spec.varargs with
       | some v => [{ option_strings := [v], nargs := some "*" }]
       | none => [])

/-- The `action` entry of the `guessed` dict in `_guess`: from a boolean
default with unset action. -/
def guessed_action (kwargs : ArgSpec) : Option String :=
  match kwargs.default with
  | some (Value.vbool b) =>
    if kwargs.action = none then
      some (if b then "store_false" else "store_true")
    else none
  | _ => none

/-- The type guessed from a non-`None`, non-boolean default when `type`
is unset and the action (defaulting to plain store) consumes a value. -/
def guessed_type_from_default (kwargs : ArgSpec) : Option Ty :=
  match kwargs.default with
  | some Value.vnone => none
  | some (Value.vbool _) => none
  | some v =>
    if kwargs.type = none ∧
        (kwargs.action.getD "store" = "store" ∨ kwargs.action.getD "store" = "append") then
      some (typeOf v)
    else none
  | none => none

/-- The `type` entry of the `guessed` dict in `_guess`: first from the
default value, else from a non-empty `choices` when no type is present
(neither guessed nor supplied). -/
def guessed_type (kwargs : ArgSpec) : Option Ty :=
  match guessed_type_from_default kwargs with
  | some t => some t
  | none =>
    match kwargs.choices, kwargs.type with
    | some (c :: _), none => some (typeOf c)
    | _, _ => none

/-- `_guess(kwargs)`: `dict(kwargs, **guessed)` where `guessed` holds
the entries computed by `guessed_action` / `guessed_type`. -/
def _guess (kwargs : ArgSpec) : ArgSpec :=
  { kwargs with
    action := match guessed_action kwargs with
              | some a => some a
              | none => kwargs.action
    type := match guessed_type kwargs with
            | some t => some t
            | none => kwargs.type }

/-- Python exceptions raised by the modelled code. -/
inductive PyError where
  | valueError : String → PyError
  | assemblingError : String → PyError
  deriving Repr, DecidableEq

instance {ε α : Type} [DecidableEq ε] [DecidableEq α] : DecidableEq (Except ε α) := fun x y =>
  match x, y with
  | Except.error a, Except.error b =>
    if h : a = b then isTrue (by rw [h]) else isFalse (by intro hh; cases hh; exact h rfl)
  | Except.error _, Except.ok _ => isFalse (by intro h; cases h)
  | Except.ok _, Except.error _ => isFalse (by intro h; cases h)
  | Except.ok a, Except.ok b =>
    if h : a = b then isTrue (by rw [h]) else isFalse (by intro hh; cases hh; exact h rfl)

/-- `_is_positional(args, prefix_chars="-")`: `ValueError` on an empty
list or an empty first name, else `False` exactly when the first name
starts with one of the prefix characters. -/
def _is_positional (args : List String) (pchars : String := "-") : Except PyError Bool :=
  if args = [] ∨ args.headD "" = "" then
    Except.error (PyError.valueError "Expected at least one argument")
  else
    Except.ok (!(pchars.data.contains (first_char (args.headD ""))))

/-- The `dest` computed by `_get_parser_param_kwargs(parser, argspec)`
for a parser with the default prefix characters: argparse derives the
destination from the first long option (else the first option string)
with leading dashes stripped, or from the bare positional name; dashes
are then turned into underscores (argparse does this for optionals, and
line 167 of assembling.py repeats it so that positional names are
normalized too).

The argparse behaviour modelled here is that of the CPython functions
`_get_positional_kwargs` / `_get_optional_kwargs` on the inputs this
code base produces: a positional spec carries exactly one name, and an
optional spec carries option strings that all start with a prefix
character (argparse rejects anything else with a `ValueError`). -/
def _get_parser_param_dest (argspec : ArgSpec) : Except PyError String :=
  match _is_positional argspec.option_strings "-" with
  | Except.error e => Except.error e
  | Except.ok true =>
    Except.ok (dashes_to_underscores (argspec.option_strings.headD ""))
  | Except.ok false =>
    if argspec.option_strings.all (fun s => s.data.head? = some '-') then
      let longs := argspec.option_strings.filter
        (fun s => match s.data with
                  | _ :: c :: _ => c = '-'
                  | _ => false)
      let d0 := longs.headD (argspec.option_strings.headD "")
      let dest := lstrip_dashes d0
      if dest = "" then
        Except.error (PyError.valueError ("dest= is required for options like " ++ d0))
      else
        Except.ok (dashes_to_underscores (dashes_to_underscores dest))
    else
      Except.error (PyError.valueError "invalid option string")

/-- `OrderedDict` lookup over its entry list. -/
def odLookup {α : Type} : List (String × α) → String → Option α
  | [], _ => none
  | (k0, v0) :: rest, k => if k0 = k then some v0 else odLookup rest k

/-- `OrderedDict` assignment `d[k] = v`: replace in place when the key
exists, append otherwise. -/
def odInsert {α : Type} : List (String × α) → String → α → List (String × α)
  | [], k, v => [(k, v)]
  | (k0, v0) :: rest, k, v =>
    if k0 = k then (k0, v) :: rest else (k0, v0) :: odInsert rest k v

/-- `dests[dest].update(**declared_kw)`: keys present in the declaration
(modelled by `some` fields, with `option_strings` always present)
override the inferred entry; absent keys are left untouched. -/
def spec_update (base upd : ArgSpec) : ArgSpec :=
  { option_strings := upd.option_strings
    default := match upd.default with | some v => some v | none => base.default
    required := match upd.required with | some v => some v | none => base.required
    type := match upd.type with | some v => some v | none => base.type
    action := match upd.action with | some v => some v | none => base.action
    choices := match upd.choices with | some v => some v | none => base.choices
    help := match upd.help with | some v => some v | none => base.help
    nargs := match upd.nargs with | some v => some v | none => base.nargs }

/-- Python truthiness of `spec.varkw` (an optional string). -/
def truthy : Option String → Bool
  | none => false
  | some s => s ≠ ""

/-- The classification-conflict message of lines 240-248. -/
def classification_conflict_msg (func dest : String)
    (kind_i kind_d : Bool) : String :=
  let kinds := fun b => if b then "positional" else "optional"
  func ++ ": argument \"" ++ dest ++ "\" declared as " ++ kinds kind_i ++
    " (in function signature) and " ++ kinds kind_d ++ " (via decorator)"

/-- The signature-mismatch message of lines 262-270. -/
def signature_mismatch_msg (func : String) (declared_kw : ArgSpec)
    (dests : List (String × ArgSpec)) : String :=
  func ++ ": argument " ++ String.intercalate ", " declared_kw.option_strings ++
    " does not fit function signature: " ++
    String.intercalate ", " (dests.map (fun p => String.intercalate "/" p.2.option_strings))

/-- The first loop of the merge step: `dests[dest] = argspec` for each
inferred argument. -/
def buildDests (acc : List (String × ArgSpec)) :
    List ArgSpec → Except PyError (List (String × ArgSpec))
  | [] => Except.ok acc
  | argspec :: rest =>
    match _get_parser_param_dest argspec with
    | Except.error e => Except.error e
    | Except.ok dest => buildDests (odInsert acc dest argspec) rest

/-- The second loop of the merge step: reconcile each declared argument
against `dests`, by its destination key. -/
def mergeDeclared (fname : String) (varkw : Bool)
    (dests : List (String × ArgSpec)) :
    List ArgSpec → Except PyError (List (String × ArgSpec))
  | [] => Except.ok dests
  | declared_kw :: rest =>
    match _get_parser_param_dest declared_kw with
    | Except.error e => Except.error e
    | Except.ok dest =>
      match odLookup dests dest with
      | some inferred =>
        match _is_positional declared_kw.option_strings "-",
              _is_positional inferred.option_strings "-" with
        | Except.error e, _ => Except.error e
        | Except.ok _, Except.error e => Except.error e
        | Except.ok decl_positional, Except.ok infr_positional =>
          if decl_positional ≠ infr_positional then
            Except.error (PyError.assemblingError
              (classification_conflict_msg fname dest infr_positional decl_positional))
          else
            mergeDeclared fname varkw
              (odInsert dests dest (spec_update inferred declared_kw)) rest
      | none =>
        if varkw then
          mergeDeclared fname varkw (odInsert dests dest declared_kw) rest
        else
          Except.error (PyError.assemblingError
            (signature_mismatch_msg fname declared_kw dests))

/-- `set_default_command(parser, function)` up to the reconciled list it
passes to registration: infer, merge declared arguments when both sets
are non-empty, fall back on the declared list when nothing was inferred,
then apply `_guess` to every spec. -/
def set_default_command (function : Func) : Except PyError (List ArgSpec) :=
  let declared_args := function.declared_args
  let inferred_args := _get_args_from_signature function
  let merged : Except PyError (List ArgSpec) :=
    if inferred_args ≠ [] ∧ declared_args ≠ [] then
      match buildDests [] inferred_args with
      | Except.error e => Except.error e
      | Except.ok dests =>
        match mergeDeclared function.name (truthy function.spec.varkw) dests declared_args with
        | Except.error e => Except.error e
        | Except.ok dests2 => Except.ok (dests2.map Prod.snd)
    else Except.ok inferred_args
  match merged with
  | Except.error e => Except.error e
  | Except.ok inferred2 =>
    let command_args := if inferred2 ≠ [] then inferred2 else declared_args
    Except.ok (command_args.map _guess)

/-- The destination keys of a list of specs, in order. -/
def destsOf : List ArgSpec → Except PyError (List String)
  | [] => Except.ok []
  | a :: rest =>
    match _get_parser_param_dest a with
    | Except.error e => Except.error e
    | Except.ok d =>
      match destsOf rest with
      | Except.error e => Except.error e
      | Except.ok ds => Except.ok (d :: ds)

/-- The invariant maintained by the dests dictionary: keys are distinct
and every entry is stored under its own destination key. -/
def DestsInv (dests : List (String × ArgSpec)) : Prop :=
  (dests.map Prod.fst).Nodup ∧
    ∀ p ∈ dests, _get_parser_param_dest p.2 = Except.ok p.1

section OdLemmas

variable {α : Type}

theorem odLookup_eq_none_iff (l : List (String × α)) (k : String) :
    odLookup l k = none ↔ k ∉ l.map Prod.fst := by
  induction l with
  | nil => simp [odLookup]
  | cons p rest ih =>
    obtain ⟨k0, v0⟩ := p
    by_cases h : k0 = k
    · subst h
      simp [odLookup]
    · simp [odLookup, h, ih, Ne.symm h]

theorem mem_keys_of_odLookup_some {l : List (String × α)} {k : String} {a : α}
    (h : odLookup l k = some a) : k ∈ l.map Prod.fst := by
  by_contra hmem
  rw [← odLookup_eq_none_iff] at hmem
  rw [h] at hmem
  cases hmem

theorem odLookup_odInsert_self (l : List (String × α)) (k : String) (v : α) :
    odLookup (odInsert l k v) k = some v := by
  induction l with
  | nil => simp [odInsert, odLookup]
  | cons p rest ih =>
    obtain ⟨k0, v0⟩ := p
    by_cases h : k0 = k
    · subst h
      simp [odInsert, odLookup]
    · simp [odInsert, odLookup, h, ih]

theorem odLookup_odInsert_of_ne (l : List (String × α)) {k0 k : String} (v : α)
    (h : k0 ≠ k) : odLookup (odInsert l k0 v) k = odLookup l k := by
  induction l with
  | nil => simp [odInsert, odLookup, h]
  | cons p rest ih =>
    obtain ⟨k1, v1⟩ := p
    by_cases h1 : k1 = k0
    · subst h1
      simp [odInsert, odLookup, h]
    · by_cases h2 : k1 = k
      · subst h2
        simp [odInsert, odLookup, h1]
      · simp [odInsert, odLookup, h1, h2, ih]

theorem odInsert_eq_append (l : List (String × α)) (k : String) (v : α)
    (h : odLookup l k = none) : odInsert l k v = l ++ [(k, v)] := by
  induction l with
  | nil => simp [odInsert]
  | cons p rest ih =>
    obtain ⟨k0, v0⟩ := p
    by_cases h0 : k0 = k
    · subst h0
      simp [odLookup] at h
    · simp [odLookup, h0] at h
      simp [odInsert, h0, ih h]

theorem odInsert_map_fst_of_lookup_some (l : List (String × α)) {k : String} {a : α}
    (v : α) (h : odLookup l k = some a) :
    (odInsert l k v).map Prod.fst = l.map Prod.fst := by
  induction l with
  | nil => simp [odLookup] at h
  | cons p rest ih =>
    obtain ⟨k0, v0⟩ := p
    by_cases h0 : k0 = k
    · subst h0
      simp [odInsert]
    · simp [odLookup, h0] at h
      simp [odInsert, h0, ih h]

theorem odInsert_ne_nil (l : List (String × α)) (k : String) (v : α) :
    odInsert l k v ≠ [] := by
  cases l with
  | nil => simp [odInsert]
  | cons p rest =>
    obtain ⟨k0, v0⟩ := p
    by_cases h0 : k0 = k <;> simp [odInsert, h0]

theorem mem_odInsert {l : List (String × α)} {k : String} {v : α} {p : String × α}
    (hp : p ∈ odInsert l k v) : p ∈ l ∨ p = (k, v) := by
  induction l with
  | nil => simp [odInsert] at hp; simp [hp]
  | cons q rest ih =>
    obtain ⟨k0, v0⟩ := q
    by_cases h0 : k0 = k
    · subst h0
      simp [odInsert] at hp
      rcases hp with h | h
      · right; simp [h]
      · left; simp [h]
    · simp [odInsert, h0] at hp
      rcases hp with h | h
      · left; simp [h]
      · rcases ih h with h1 | h1
        · left; simp [h1]
        · right; exact h1

theorem odInsert_nodup_keys (l : List (String × α)) (k : String) (v : α)
    (h : (l.map Prod.fst).Nodup) : ((odInsert l k v).map Prod.fst).Nodup := by
  rcases hl : odLookup l k with _ | a
  · rw [odInsert_eq_append l k v hl]
    rw [odLookup_eq_none_iff] at hl
    simp [List.nodup_append, h, hl]
  · rw [odInsert_map_fst_of_lookup_some l v hl]
    exact h

theorem odInsert_count_key (l : List (String × α)) (k : String) (v : α)
    (h : (l.map Prod.fst).Nodup) :
    ((odInsert l k v).map Prod.fst).count k = 1 := by
  rcases hl : odLookup l k with _ | a
  · rw [odInsert_eq_append l k v hl]
    rw [odLookup_eq_none_iff] at hl
    simp [List.count_append, List.count_eq_zero.mpr hl]
  · rw [odInsert_map_fst_of_lookup_some l v hl]
    exact List.count_eq_one_of_mem h (mem_keys_of_odLookup_some hl)

end OdLemmas
section PipelineLemmas

theorem guess_option_strings (a : ArgSpec) : (_guess a).option_strings = a.option_strings := rfl

theorem dest_guess (a : ArgSpec) :
    _get_parser_param_dest (_guess a) = _get_parser_param_dest a := rfl

theorem dest_spec_update (a d : ArgSpec) :
    _get_parser_param_dest (spec_update a d) = _get_parser_param_dest d := rfl

theorem is_positional_spec_update (a d : ArgSpec) :
    _is_positional (spec_update a d).option_strings "-" =
      _is_positional d.option_strings "-" := rfl

theorem guess_eq_self_of_plain {a : ArgSpec} (hd : a.default = none)
    (hc : a.choices = none) : _guess a = a := by
  have ha : guessed_action a = none := by
    simp [guessed_action, hd]
  have ht : guessed_type a = none := by
    simp [guessed_type, guessed_type_from_default, hd, hc]
  simp [_guess, ha, ht]

theorem destsInv_insert {dests : List (String × ArgSpec)} {k : String} {v : ArgSpec}
    (h : DestsInv dests) (hv : _get_parser_param_dest v = Except.ok k) :
    DestsInv (odInsert dests k v) := by
  constructor
  · exact odInsert_nodup_keys dests k v h.1
  · intro p hp
    rcases mem_odInsert hp with h1 | h1
    · exact h.2 p h1
    · subst h1
      exact hv

theorem buildDests_inv {l : List ArgSpec} :
    ∀ {acc res : List (String × ArgSpec)}, buildDests acc l = Except.ok res →
      DestsInv acc → DestsInv res := by
  induction l with
  | nil =>
    intro acc res h hacc
    simp [buildDests] at h
    rw [← h]
    exact hacc
  | cons a rest ih =>
    intro acc res h hacc
    rcases hd : _get_parser_param_dest a with e | d
    · rw [buildDests, hd] at h
      cases h
    · rw [buildDests, hd] at h
      exact ih h (destsInv_insert hacc hd)

theorem mergeDeclared_inv {fname : String} {vk : Bool} {l : List ArgSpec} :
    ∀ {dests res : List (String × ArgSpec)},
      mergeDeclared fname vk dests l = Except.ok res →
      DestsInv dests → DestsInv res := by
  induction l with
  | nil =>
    intro dests res h hinv
    simp [mergeDeclared] at h
    rw [← h]
    exact hinv
  | cons d rest ih =>
    intro dests res h hinv
    rcases hd : _get_parser_param_dest d with e | k
    · simp only [mergeDeclared, hd] at h
      cases h
    · simp only [mergeDeclared, hd] at h
      rcases hl : odLookup dests k with _ | inferred
      · simp only [hl] at h
        by_cases hvk : vk = true
        · subst hvk
          simp only [if_true] at h
          exact ih h (destsInv_insert hinv hd)
        · simp only [Bool.not_eq_true] at hvk
          subst hvk
          simp only [Bool.false_eq_true, if_false] at h
          cases h
      · simp only [hl] at h
        rcases hdp : _is_positional d.option_strings "-" with e | decl_positional
        · simp only [hdp] at h
          cases h
        · rcases hip : _is_positional inferred.option_strings "-" with e | infr_positional
          · simp only [hdp, hip] at h
            cases h
          · simp only [hdp, hip] at h
            by_cases hne : decl_positional ≠ infr_positional
            · simp only [if_pos hne] at h
              cases h
            · simp only [if_neg hne] at h
              have hdest : _get_parser_param_dest (spec_update inferred d) = Except.ok k := by
                rw [dest_spec_update]
                exact hd
              exact ih h (destsInv_insert hinv hdest)

theorem mergeDeclared_keys {fname : String} {vk : Bool} {l : List ArgSpec} :
    ∀ {dests res : List (String × ArgSpec)},
      mergeDeclared fname vk dests l = Except.ok res →
      ∃ ext, res.map Prod.fst = dests.map Prod.fst ++ ext := by
  induction l with
  | nil =>
    intro dests res h
    simp [mergeDeclared] at h
    exact ⟨[], by rw [← h]; simp⟩
  | cons d rest ih =>
    intro dests res h
    rcases hd : _get_parser_param_dest d with e | k
    · simp only [mergeDeclared, hd] at h
      cases h
    · simp only [mergeDeclared, hd] at h
      rcases hl : odLookup dests k with _ | inferred
      · simp only [hl] at h
        by_cases hvk : vk = true
        · subst hvk
          simp only [if_true] at h
          obtain ⟨ext, hext⟩ := ih h
          refine ⟨k :: ext, ?_⟩
          rw [hext, odInsert_eq_append dests k d hl]
          simp
        · simp only [Bool.not_eq_true] at hvk
          subst hvk
          simp only [Bool.false_eq_true, if_false] at h
          cases h
      · simp only [hl] at h
        rcases hdp : _is_positional d.option_strings "-" with e | decl_positional
        · simp only [hdp] at h
          cases h
        · rcases hip : _is_positional inferred.option_strings "-" with e | infr_positional
          · simp only [hdp, hip] at h
            cases h
          · simp only [hdp, hip] at h
            by_cases hne : decl_positional ≠ infr_positional
            · simp only [if_pos hne] at h
              cases h
            · simp only [if_neg hne] at h
              obtain ⟨ext, hext⟩ := ih h
              refine ⟨ext, ?_⟩
              rw [hext, odInsert_map_fst_of_lookup_some dests _ hl]

theorem mergeDeclared_preserves_class {fname : String} {vk : Bool} {l : List ArgSpec} :
    ∀ {dests res : List (String × ArgSpec)},
      mergeDeclared fname vk dests l = Except.ok res →
      ∀ k a, odLookup dests k = some a →
        ∃ a2, odLookup res k = some a2 ∧
          _is_positional a2.option_strings "-" = _is_positional a.option_strings "-" := by
  induction l with
  | nil =>
    intro dests res h k a hka
    simp [mergeDeclared] at h
    exact ⟨a, by rw [← h]; exact hka, rfl⟩
  | cons d rest ih =>
    intro dests res h k a hka
    rcases hd : _get_parser_param_dest d with e | k0
    · simp only [mergeDeclared, hd] at h
      cases h
    · simp only [mergeDeclared, hd] at h
      rcases hl : odLookup dests k0 with _ | inferred
      · simp only [hl] at h
        by_cases hvk : vk = true
        · subst hvk
          simp only [if_true] at h
          have hk0 : k0 ≠ k := by
            intro hkk
            subst hkk
            rw [hka] at hl
            cases hl
          have hstep : odLookup (odInsert dests k0 d) k = some a := by
            rw [odLookup_odInsert_of_ne dests d hk0]
            exact hka
          exact ih h k a hstep
        · simp only [Bool.not_eq_true] at hvk
          subst hvk
          simp only [Bool.false_eq_true, if_false] at h
          cases h
      · simp only [hl] at h
        rcases hdp : _is_positional d.option_strings "-" with e | decl_positional
        · simp only [hdp] at h
          cases h
        · rcases hip : _is_positional inferred.option_strings "-" with e | infr_positional
          · simp only [hdp, hip] at h
            cases h
          · simp only [hdp, hip] at h
            by_cases hne : decl_positional ≠ infr_positional
            · simp only [if_pos hne] at h
              cases h
            · simp only [if_neg hne] at h
              push_neg at hne
              by_cases hkk : k0 = k
              · subst hkk
                have ha : a = inferred := by
                  rw [hka] at hl
                  cases hl
                  rfl
                subst ha
                have hstep : odLookup (odInsert dests k0 (spec_update a d)) k0 =
                    some (spec_update a d) := odLookup_odInsert_self dests k0 _
                obtain ⟨a2, ha2, hcls⟩ := ih h k0 (spec_update a d) hstep
                refine ⟨a2, ha2, ?_⟩
                rw [hcls, is_positional_spec_update, hdp, hip, hne]
              · have hstep : odLookup (odInsert dests k0 (spec_update inferred d)) k = some a := by
                  rw [odLookup_odInsert_of_ne dests _ hkk]
                  exact hka
                exact ih h k a hstep

end PipelineLemmas
section SdcLemmas

theorem destsOf_map_guess {l : List (String × ArgSpec)}
    (h : ∀ p ∈ l, _get_parser_param_dest p.2 = Except.ok p.1) :
    destsOf (l.map (fun p => _guess p.2)) = Except.ok (l.map Prod.fst) := by
  induction l with
  | nil => simp [destsOf]
  | cons p rest ih =>
    have hp : _get_parser_param_dest p.2 = Except.ok p.1 := h p (by simp)
    have hrest : ∀ q ∈ rest, _get_parser_param_dest q.2 = Except.ok q.1 := by
      intro q hq
      exact h q (by simp [hq])
    simp [destsOf, dest_guess, hp, ih hrest]

theorem buildDests_ne_nil_of_acc {l : List ArgSpec} :
    ∀ {acc res : List (String × ArgSpec)}, buildDests acc l = Except.ok res →
      acc ≠ [] → res ≠ [] := by
  induction l with
  | nil =>
    intro acc res h hacc
    simp [buildDests] at h
    rw [← h]
    exact hacc
  | cons a rest ih =>
    intro acc res h hacc
    rcases hd : _get_parser_param_dest a with e | d
    · rw [buildDests, hd] at h
      cases h
    · rw [buildDests, hd] at h
      exact ih h (odInsert_ne_nil acc d a)

theorem buildDests_ne_nil {l : List ArgSpec} {res : List (String × ArgSpec)}
    (hl : l ≠ []) (h : buildDests [] l = Except.ok res) : res ≠ [] := by
  cases l with
  | nil => exact absurd rfl hl
  | cons a rest =>
    rcases hd : _get_parser_param_dest a with e | d
    · rw [buildDests, hd] at h
      cases h
    · rw [buildDests, hd] at h
      exact buildDests_ne_nil_of_acc h (odInsert_ne_nil [] d a)

theorem mergeDeclared_ne_nil {fname : String} {vk : Bool} {l : List ArgSpec}
    {dests res : List (String × ArgSpec)}
    (h : mergeDeclared fname vk dests l = Except.ok res) (hd : dests ≠ []) :
    res ≠ [] := by
  obtain ⟨ext, hext⟩ := mergeDeclared_keys h
  intro hres
  subst hres
  simp at hext
  exact hd hext.1

theorem sdc_no_declared {f : Func} (h : f.declared_args = []) :
    set_default_command f = Except.ok ((_get_args_from_signature f).map _guess) := by
  by_cases hi : _get_args_from_signature f = [] <;>
    simp [set_default_command, h, hi]

theorem sdc_no_inferred {f : Func} (h : _get_args_from_signature f = []) :
    set_default_command f = Except.ok (f.declared_args.map _guess) := by
  simp [set_default_command, h]

theorem sdc_merge {f : Func} {ds ds2 : List (String × ArgSpec)}
    (hinf : _get_args_from_signature f ≠ []) (hdecl : f.declared_args ≠ [])
    (hbuild : buildDests [] (_get_args_from_signature f) = Except.ok ds)
    (hmerge : mergeDeclared f.name (truthy f.spec.varkw) ds f.declared_args = Except.ok ds2) :
    set_default_command f = Except.ok ((ds2.map Prod.snd).map _guess) := by
  have hds : ds ≠ [] := buildDests_ne_nil hinf hbuild
  have hds2 : ds2 ≠ [] := mergeDeclared_ne_nil hmerge hds
  have hsnd : ds2.map Prod.snd ≠ [] := by
    simpa using hds2
  simp only [set_default_command, if_pos (And.intro hinf hdecl), hbuild, hmerge]
  simp [hsnd]

theorem sdc_build_error {f : Func} {e : PyError}
    (hinf : _get_args_from_signature f ≠ []) (hdecl : f.declared_args ≠ [])
    (hbuild : buildDests [] (_get_args_from_signature f) = Except.error e) :
    set_default_command f = Except.error e := by
  simp only [set_default_command, if_pos (And.intro hinf hdecl), hbuild]

theorem sdc_merge_error {f : Func} {ds : List (String × ArgSpec)} {e : PyError}
    (hinf : _get_args_from_signature f ≠ []) (hdecl : f.declared_args ≠ [])
    (hbuild : buildDests [] (_get_args_from_signature f) = Except.ok ds)
    (hmerge : mergeDeclared f.name (truthy f.spec.varkw) ds f.declared_args = Except.error e) :
    set_default_command f = Except.error e := by
  simp only [set_default_command, if_pos (And.intro hinf hdecl), hbuild, hmerge]

theorem mergeDeclared_conflict {fname : String} {vk : Bool} {d a : ArgSpec}
    {rest : List ArgSpec} {dests : List (String × ArgSpec)} {k : String} {bd bi : Bool}
    (hk : _get_parser_param_dest d = Except.ok k)
    (hlook : odLookup dests k = some a)
    (hdp : _is_positional d.option_strings "-" = Except.ok bd)
    (hip : _is_positional a.option_strings "-" = Except.ok bi)
    (hne : bd ≠ bi) :
    mergeDeclared fname vk dests (d :: rest) =
      Except.error (PyError.assemblingError (classification_conflict_msg fname k bi bd)) := by
  simp only [mergeDeclared, hk, hlook, hdp, hip, if_pos hne]

theorem mergeDeclared_match {fname : String} {vk : Bool} {d a : ArgSpec}
    {rest : List ArgSpec} {dests : List (String × ArgSpec)} {k : String} {b : Bool}
    (hk : _get_parser_param_dest d = Except.ok k)
    (hlook : odLookup dests k = some a)
    (hdp : _is_positional d.option_strings "-" = Except.ok b)
    (hip : _is_positional a.option_strings "-" = Except.ok b) :
    mergeDeclared fname vk dests (d :: rest) =
      mergeDeclared fname vk (odInsert dests k (spec_update a d)) rest := by
  simp only [mergeDeclared, hk, hlook, hdp, hip, ne_eq, not_true_eq_false, if_neg,
    not_false_eq_true, if_false]

theorem mergeDeclared_unknown_varkw {fname : String} {d : ArgSpec}
    {rest : List ArgSpec} {dests : List (String × ArgSpec)} {k : String}
    (hk : _get_parser_param_dest d = Except.ok k)
    (hlook : odLookup dests k = none) :
    mergeDeclared fname true dests (d :: rest) =
      mergeDeclared fname true (odInsert dests k d) rest := by
  simp only [mergeDeclared, hk, hlook, if_true]

theorem mergeDeclared_unknown_fail {fname : String} {d : ArgSpec}
    {rest : List ArgSpec} {dests : List (String × ArgSpec)} {k : String}
    (hk : _get_parser_param_dest d = Except.ok k)
    (hlook : odLookup dests k = none) :
    mergeDeclared fname false dests (d :: rest) =
      Except.error (PyError.assemblingError (signature_mismatch_msg fname d dests)) := by
  simp only [mergeDeclared, hk, hlook, Bool.false_eq_true, if_false]

end SdcLemmas
/-- C1: for every callable and every explicit declaration whose destination
key matches an inferred argument of the same positional/optional
classification, `set_default_command` produces exactly one reconciled spec
for that key (its key occurs exactly once in the merged dictionary), the
entry stored there is the field-by-field merge `spec_update` in which the
fields of the declaration take precedence and fields absent from it
are left as inferred. -/
theorem claim_C1 (f : Func) (d a : ArgSpec) (k : String)
    (ds : List (String × ArgSpec)) (b : Bool)
    (hdecl : f.declared_args = [d])
    (hinf : _get_args_from_signature f ≠ [])
    (hbuild : buildDests [] (_get_args_from_signature f) = Except.ok ds)
    (hk : _get_parser_param_dest d = Except.ok k)
    (hlook : odLookup ds k = some a)
    (hdp : _is_positional d.option_strings "-" = Except.ok b)
    (hip : _is_positional a.option_strings "-" = Except.ok b) :
    set_default_command f =
      Except.ok (((odInsert ds k (spec_update a d)).map Prod.snd).map _guess) ∧
    ((odInsert ds k (spec_update a d)).map Prod.fst).count k = 1 ∧
    odLookup (odInsert ds k (spec_update a d)) k = some (spec_update a d) ∧
    (spec_update a d).help = (match d.help with | some v => some v | none => a.help) ∧
    (spec_update a d).default = (match d.default with | some v => some v | none => a.default) ∧
    (spec_update a d).required = (match d.required with | some v => some v | none => a.required) ∧
    (spec_update a d).type = (match d.type with | some v => some v | none => a.type) ∧
    (spec_update a d).action = (match d.action with | some v => some v | none => a.action) ∧
    (spec_update a d).choices = (match d.choices with | some v => some v | none => a.choices) ∧
    (spec_update a d).nargs = (match d.nargs with | some v => some v | none => a.nargs) ∧
    (spec_update a d).option_strings = d.option_strings := by
  have hmerge : mergeDeclared f.name (truthy f.spec.varkw) ds f.declared_args =
      Except.ok (odInsert ds k (spec_update a d)) := by
    rw [hdecl, mergeDeclared_match hk hlook hdp hip]
    rfl
  have hinv : DestsInv ds :=
    buildDests_inv hbuild ⟨List.nodup_nil, fun p hp => absurd hp (List.not_mem_nil p)⟩
  refine ⟨?_, ?_, odLookup_odInsert_self ds k _, rfl, rfl, rfl, rfl, rfl, rfl, rfl, rfl⟩
  · exact sdc_merge hinf (by rw [hdecl]; simp) hbuild hmerge
  · exact odInsert_count_key ds k _ hinv.1

theorem claim_C1_witness :
    set_default_command
      { name := "cmd", spec := { args := ["flag"], defaults := [Value.vint 1] },
        declared_args := [{ option_strings := ["--flag"], help := some "x" }] } =
      Except.ok [{ option_strings := ["--flag"], default := some (Value.vint 1),
                   type := some Ty.tint, help := some "x" }] := by
  have h := claim_C1
    { name := "cmd", spec := { args := ["flag"], defaults := [Value.vint 1] },
      declared_args := [{ option_strings := ["--flag"], help := some "x" }] }
    { option_strings := ["--flag"], help := some "x" }
    { option_strings := ["-f", "--flag"], default := some (Value.vint 1) }
    "flag"
    [("flag", { option_strings := ["-f", "--flag"], default := some (Value.vint 1) })]
    false
    rfl (by decide) (by decide) (by decide) (by decide) (by decide) (by decide)
  rw [h.1]
  decide

/-- C2: when the destination key of an explicit declaration matches an inferred
argument but the positional/optional classifications disagree,
`set_default_command` fails with the `AssemblingError` whose message names
the function, the destination key and both classifications (built by
`classification_conflict_msg`). -/
theorem claim_C2 (f : Func) (d a : ArgSpec) (rest : List ArgSpec) (k : String)
    (ds : List (String × ArgSpec)) (bd bi : Bool)
    (hdecl : f.declared_args = d :: rest)
    (hinf : _get_args_from_signature f ≠ [])
    (hbuild : buildDests [] (_get_args_from_signature f) = Except.ok ds)
    (hk : _get_parser_param_dest d = Except.ok k)
    (hlook : odLookup ds k = some a)
    (hdp : _is_positional d.option_strings "-" = Except.ok bd)
    (hip : _is_positional a.option_strings "-" = Except.ok bi)
    (hne : bd ≠ bi) :
    set_default_command f =
      Except.error (PyError.assemblingError (classification_conflict_msg f.name k bi bd)) := by
  apply sdc_merge_error hinf (by rw [hdecl]; simp) hbuild
  rw [hdecl]
  exact mergeDeclared_conflict hk hlook hdp hip hne

theorem claim_C2_witness :
    set_default_command
      { name := "func", spec := { args := ["foo"] },
        declared_args := [{ option_strings := ["--foo"] }] } =
      Except.error (PyError.assemblingError
        "func: argument \"foo\" declared as positional (in function signature) and optional (via decorator)") := by
  have h := claim_C2
    { name := "func", spec := { args := ["foo"] },
      declared_args := [{ option_strings := ["--foo"] }] }
    { option_strings := ["--foo"] }
    { option_strings := ["foo"] }
    [] "foo" [("foo", { option_strings := ["foo"] })] false true
    rfl (by decide) (by decide) (by decide) (by decide) (by decide) (by decide) (by decide)
  rw [h]
  decide

/-- C3: an explicit declaration whose destination key matches no inferred
argument is accepted, adopted verbatim as a new appended entry, exactly when
the callable has a truthy variadic-keyword collector; otherwise
`set_default_command` fails with the `AssemblingError` listing the
names of the declaration together with all already-known argument names
(built by `signature_mismatch_msg`). -/
theorem claim_C3 (f : Func) (d : ArgSpec) (k : String) (ds : List (String × ArgSpec))
    (hdecl : f.declared_args = [d])
    (hinf : _get_args_from_signature f ≠ [])
    (hbuild : buildDests [] (_get_args_from_signature f) = Except.ok ds)
    (hk : _get_parser_param_dest d = Except.ok k)
    (hlook : odLookup ds k = none) :
    (truthy f.spec.varkw = true →
      set_default_command f = Except.ok ((ds.map Prod.snd ++ [d]).map _guess)) ∧
    (truthy f.spec.varkw = false →
      set_default_command f =
        Except.error (PyError.assemblingError (signature_mismatch_msg f.name d ds))) := by
  constructor
  · intro hvk
    have hmerge : mergeDeclared f.name (truthy f.spec.varkw) ds f.declared_args =
        Except.ok (ds ++ [(k, d)]) := by
      rw [hdecl, hvk, mergeDeclared_unknown_varkw hk hlook,
        odInsert_eq_append ds k d hlook]
      rfl
    rw [sdc_merge hinf (by rw [hdecl]; simp) hbuild hmerge]
    simp
  · intro hvk
    apply sdc_merge_error hinf (by rw [hdecl]; simp) hbuild
    rw [hdecl, hvk]
    exact mergeDeclared_unknown_fail hk hlook

theorem claim_C3_witness :
    set_default_command
      { name := "cmd", spec := { args := ["foo"], varkw := some "kwargs" },
        declared_args := [{ option_strings := ["--bar"] }] } =
      Except.ok [{ option_strings := ["foo"] }, { option_strings := ["--bar"] }] ∧
    set_default_command
      { name := "confuse_a_cat",
        spec := { args := ["vet", "funny_things"], defaults := [Value.vint 123] },
        declared_args := [{ option_strings := ["bogus-argument"] }] } =
      Except.error (PyError.assemblingError
        "confuse_a_cat: argument bogus-argument does not fit function signature: vet, -f/--funny-things") := by
  constructor
  · have h := claim_C3
      { name := "cmd", spec := { args := ["foo"], varkw := some "kwargs" },
        declared_args := [{ option_strings := ["--bar"] }] }
      { option_strings := ["--bar"] }
      "bar" [("foo", { option_strings := ["foo"] })]
      rfl (by decide) (by decide) (by decide) (by decide)
    rw [h.1 (by decide)]
    decide
  · have h := claim_C3
      { name := "confuse_a_cat",
        spec := { args := ["vet", "funny_things"], defaults := [Value.vint 123] },
        declared_args := [{ option_strings := ["bogus-argument"] }] }
      { option_strings := ["bogus-argument"] }
      "bogus_argument"
      [("vet", { option_strings := ["vet"] }),
       ("funny_things",
        { option_strings := ["-f", "--funny-things"], default := some (Value.vint 123) })]
      rfl (by decide) (by decide) (by decide) (by decide)
    rw [h.2 (by decide)]
    decide

/-- C8: a callable marked as expecting a pre-built namespace object yields
an empty inferred list; when the inferred list is empty the explicit
declarations are used directly (only `_guess` is applied, no merge-conflict
checking and no failure); when no declarations exist the inferred list
passes through the merge step unchanged. -/
theorem claim_C8 :
    (∀ f : Func, f.expects_namespace_object = true → _get_args_from_signature f = []) ∧
    (∀ f : Func, _get_args_from_signature f = [] →
      set_default_command f = Except.ok (f.declared_args.map _guess)) ∧
    (∀ f : Func, f.declared_args = [] →
      set_default_command f = Except.ok ((_get_args_from_signature f).map _guess)) := by
  refine ⟨?_, ?_, ?_⟩
  · intro f h
    simp [_get_args_from_signature, h]
  · intro f h
    exact sdc_no_inferred h
  · intro f h
    exact sdc_no_declared h

theorem claim_C8_witness :
    _get_args_from_signature
      { name := "cmd", expects_namespace_object := true,
        spec := { args := ["x"] } } = [] ∧
    set_default_command
      { name := "cmd", expects_namespace_object := true, spec := { args := ["x"] },
        declared_args := [{ option_strings := ["--y"] }] } =
      Except.ok [{ option_strings := ["--y"] }] ∧
    set_default_command
      { name := "cmd", spec := { args := ["x"], defaults := [Value.vint 7] } } =
      Except.ok [{ option_strings := ["-x", "--x"], default := some (Value.vint 7),
                   type := some Ty.tint }] := by
  refine ⟨?_, ?_, ?_⟩
  · exact claim_C8.1 _ rfl
  · exact (claim_C8.2.1 _ (by decide)).trans (by decide)
  · exact (claim_C8.2.2 _ rfl).trans (by decide)
theorem destsOf_map_guess_list (l : List ArgSpec) :
    destsOf (l.map _guess) = destsOf l := by
  induction l with
  | nil => rfl
  | cons a rest ih => simp [destsOf, dest_guess, ih]

/-- C9 (amended): each destination key appears at most once in the final
reconciled list provided the callable has at least one inferred argument
(merge path) or no explicit declarations and distinct inferred destination
keys; when the inferred list is empty the declarations pass through
unmerged and may repeat a destination key (see the counterexample). -/
theorem claim_C9 :
    (∀ (f : Func) (res : List ArgSpec),
      _get_args_from_signature f ≠ [] → f.declared_args ≠ [] →
      set_default_command f = Except.ok res →
      ∃ dl, destsOf res = Except.ok dl ∧ dl.Nodup) ∧
    (∀ (f : Func) (res : List ArgSpec) (dl : List String),
      f.declared_args = [] →
      set_default_command f = Except.ok res →
      destsOf (_get_args_from_signature f) = Except.ok dl → dl.Nodup →
      destsOf res = Except.ok dl ∧ dl.Nodup) := by
  constructor
  · intro f res hinf hdecl h
    rcases hbuild : buildDests [] (_get_args_from_signature f) with e | ds
    · rw [sdc_build_error hinf hdecl hbuild] at h
      cases h
    · rcases hmerge : mergeDeclared f.name (truthy f.spec.varkw) ds f.declared_args with e | ds2
      · rw [sdc_merge_error hinf hdecl hbuild hmerge] at h
        cases h
      · rw [sdc_merge hinf hdecl hbuild hmerge] at h
        simp only [Except.ok.injEq] at h
        subst h
        have hinv : DestsInv ds2 :=
          mergeDeclared_inv hmerge
            (buildDests_inv hbuild ⟨List.nodup_nil, fun p hp => absurd hp (List.not_mem_nil p)⟩)
        refine ⟨ds2.map Prod.fst, ?_, hinv.1⟩
        rw [List.map_map]
        exact destsOf_map_guess hinv.2
  · intro f res dl hdecl h hd hn
    rw [sdc_no_declared hdecl] at h
    simp only [Except.ok.injEq] at h
    subst h
    exact ⟨(destsOf_map_guess_list _).trans hd, hn⟩

theorem claim_C9_witness :
    ∃ dl, destsOf
        [{ option_strings := ["--flag"], default := some (Value.vint 1),
           type := some Ty.tint, help := some "x" }] = Except.ok dl ∧ dl.Nodup := by
  have h := claim_C9.1
    { name := "cmd", spec := { args := ["flag"], defaults := [Value.vint 1] },
      declared_args := [{ option_strings := ["--flag"], help := some "x" }] }
    [{ option_strings := ["--flag"], default := some (Value.vint 1),
       type := some Ty.tint, help := some "x" }]
    (by decide) (by decide) (by decide)
  exact h

/-- C9 counterexample: a callable with an empty inferred list and two
explicit declarations whose option strings differ only in dash versus
underscore is accepted, yet the final reconciled list carries the
destination key a_b twice — two specs with the same destination key are
passed to registration without being merged. -/
theorem claim_C9_cex :
    set_default_command
      { name := "cmd", spec := { varkw := some "kwargs" },
        declared_args := [{ option_strings := ["--a-b"] }, { option_strings := ["--a_b"] }] } =
      Except.ok [{ option_strings := ["--a-b"] }, { option_strings := ["--a_b"] }] ∧
    destsOf [({ option_strings := ["--a-b"] } : ArgSpec), { option_strings := ["--a_b"] }] =
      Except.ok ["a_b", "a_b"] ∧
    ¬ (["a_b", "a_b"] : List String).Nodup ∧
    ({ option_strings := ["--a-b"] } : ArgSpec) ≠ { option_strings := ["--a_b"] } := by
  refine ⟨by decide, by decide, by decide, by decide⟩

/-- C6: the guessing rules of `_guess`, in order and only on unset fields:
a boolean default with unset action yields the inverse-toggle store
action; otherwise a non-`None` default with unset type and a
value-consuming action (plain store or append) yields the runtime type of the
default; otherwise non-empty choices with no type present yield the
type of the first choice; an explicitly supplied type or action is never
overridden. -/
theorem claim_C6 :
    (∀ (s : ArgSpec) (b : Bool), s.default = some (Value.vbool b) → s.action = none →
      (_guess s).action = some (if b then "store_false" else "store_true")) ∧
    (∀ (s : ArgSpec) (v : Value), s.default = some v → v ≠ Value.vnone →
      (∀ b, v ≠ Value.vbool b) → s.type = none →
      (s.action.getD "store" = "store" ∨ s.action.getD "store" = "append") →
      (_guess s).type = some (typeOf v)) ∧
    (∀ (s : ArgSpec) (c : Value) (cs : List Value),
      s.choices = some (c :: cs) → s.type = none →
      guessed_type_from_default s = none →
      (_guess s).type = some (typeOf c)) ∧
    (∀ (s : ArgSpec) (t : Ty), s.type = some t → (_guess s).type = some t) ∧
    (∀ (s : ArgSpec) (act : String), s.action = some act → (_guess s).action = some act) := by
  refine ⟨?_, ?_, ?_, ?_, ?_⟩
  · intro s b hdef hact
    simp [_guess, guessed_action, hdef, hact]
  · intro s v hdef hnn hnb htype hact
    cases v with
    | vnone => exact absurd rfl hnn
    | vbool b => exact absurd rfl (hnb b)
    | vint n =>
      simp [_guess, guessed_type, guessed_type_from_default, hdef, htype, hact, typeOf]
    | vstr t =>
      simp [_guess, guessed_type, guessed_type_from_default, hdef, htype, hact, typeOf]
  · intro s c cs hchoices htype hgd
    simp [_guess, guessed_type, hchoices, htype, hgd]
  · intro s t htype
    have hgt : guessed_type s = none := by
      have hgd : guessed_type_from_default s = none := by
        rcases hd : s.default with _ | v
        · simp [guessed_type_from_default, hd]
        · cases v <;> simp [guessed_type_from_default, hd, htype]
      simp [guessed_type, hgd, htype]
    simp [_guess, hgt, htype]
  · intro s act hact
    have hga : guessed_action s = none := by
      rcases hd : s.default with _ | v
      · simp [guessed_action, hd]
      · cases v <;> simp [guessed_action, hd, hact]
    simp [_guess, hga, hact]

theorem claim_C6_witness :
    (_guess { option_strings := ["--x"], default := some (Value.vbool true) }).action =
      some "store_false" ∧
    (_guess { option_strings := ["--x"], default := some (Value.vint 3) }).type =
      some Ty.tint ∧
    (_guess { option_strings := ["--x"],
              choices := some [Value.vint 1, Value.vint 2, Value.vint 3] }).type =
      some Ty.tint ∧
    (_guess { option_strings := ["--x"], default := some (Value.vint 3),
              type := some Ty.tstr }).type = some Ty.tstr ∧
    (_guess { option_strings := ["--x"], default := some (Value.vbool true),
              action := some "count" }).action = some "count" := by
  refine ⟨?_, ?_, ?_, ?_, ?_⟩
  · exact claim_C6.1 _ true rfl rfl
  · exact claim_C6.2.1 _ (Value.vint 3) rfl (by decide) (by decide) rfl (Or.inl rfl)
  · exact claim_C6.2.2.1 _ (Value.vint 1) [Value.vint 2, Value.vint 3] rfl rfl (by decide)
  · exact claim_C6.2.2.2.1 _ Ty.tstr rfl
  · exact claim_C6.2.2.2.2 _ "count" rfl

/-- C7: contrary to the claim (and to the comment on line 105 of
assembling.py and the docstring of test_normalized_keys), the code does
not replace underscores with hyphens in positional argument names: line
106 applies the replacement only to strings starting with a dash, so the
positional parameter foo_bar is registered under the option string
"foo_bar", not "foo-bar". -/
theorem claim_C7 :
    set_default_command { name := "cmd", spec := { args := ["foo_bar"] } } =
      Except.ok [{ option_strings := ["foo_bar"] }] ∧
    underscores_to_dashes "foo_bar" = "foo-bar" ∧
    ("foo_bar" : String) ≠ "foo-bar" := by
  refine ⟨by decide, by decide, by decide⟩
theorem data_ne_nil_of_ne_empty {s : String} (h : s ≠ "") : s.data ≠ [] := by
  cases s with
  | mk data =>
    intro hd
    apply h
    have hdd : data = [] := hd
    subst hdd
    rfl

theorem mk_cons_ne_empty (c : Char) (l : List Char) : String.mk (c :: l) ≠ "" := by
  intro h
  have hd : (String.mk (c :: l)).data = ("" : String).data := by rw [h]
  simp at hd

theorem mk_append_data (l : List Char) (s : String) :
    (String.mk l ++ s).data = l ++ s.data := by
  cases s
  rfl

theorem u2d_ne_empty {s : String} (h : s ≠ "") : underscores_to_dashes s ≠ "" := by
  rcases hd : s.data with _ | ⟨c, rest⟩
  · exact absurd hd (data_ne_nil_of_ne_empty h)
  · rw [underscores_to_dashes, hd]
    simp only [List.map]
    exact mk_cons_ne_empty _ _

theorem dashify_ne_empty {s : String} (h : s ≠ "") : dashify s ≠ "" := by
  rw [dashify]
  by_cases hsw : startswith_dash s = true
  · rw [if_pos hsw]
    exact u2d_ne_empty h
  · simp only [Bool.not_eq_true] at hsw
    rw [if_neg (by simp [hsw])]
    exact h

theorem dashify_ident {s : String} (h : startswith_dash s = false) : dashify s = s := by
  rw [dashify, if_neg (by simp [h])]

theorem first_char_ne_dash {s : String} (h1 : s ≠ "") (h2 : startswith_dash s = false) :
    first_char s ≠ '-' := by
  rcases hd : s.data with _ | ⟨c, rest⟩
  · exact absurd hd (data_ne_nil_of_ne_empty h1)
  · rw [startswith_dash, hd] at h2
    simp at h2
    rw [first_char, hd]
    simpa using h2

theorem is_positional_of_ident {n : String} (h1 : n ≠ "") (h2 : startswith_dash n = false) :
    _is_positional [n] "-" = Except.ok true := by
  have hne : ¬(([n] : List String) = [] ∨ ([n] : List String).headD "" = "") := by
    simp [h1]
  rw [_is_positional, if_neg hne]
  have hc : (("-" : String).data.contains (first_char n)) = false := by
    have hd : ("-" : String).data = ['-'] := rfl
    rw [hd]
    simp [first_char_ne_dash h1 h2]
  simp only [List.headD_cons, hc]
  rfl

theorem mk_cons_append_ne_empty (c : Char) (l : List Char) (s : String) :
    String.mk (c :: l) ++ s ≠ "" := by
  intro h
  have hd : (String.mk (c :: l) ++ s).data = ("" : String).data := by rw [h]
  rw [mk_append_data] at hd
  simp at hd

theorem infer_one_wf {f : Func} {n : String} (h : n ≠ "") :
    (infer_one f n).option_strings ≠ [] ∧
      (infer_one f n).option_strings.headD "" ≠ "" := by
  rw [infer_one]
  by_cases hd : (sig_default f.spec n).isSome ∨ n ∈ f.spec.kwonlyargs
  · rw [if_pos hd]
    by_cases hc : (conflicting_opts f.spec).contains (first_char n)
    · simp only [if_pos hc, List.map]
      refine ⟨by simp, ?_⟩
      simp only [List.headD_cons]
      exact dashify_ne_empty (mk_cons_append_ne_empty '-' ['-'] n)
    · simp only [if_neg hc, List.map]
      refine ⟨by simp, ?_⟩
      simp only [List.headD_cons]
      exact dashify_ne_empty (mk_cons_ne_empty '-' [first_char n])
  · rw [if_neg hd]
    simp only [List.map]
    exact ⟨by simp, dashify_ne_empty h⟩
/-- C10: `_is_positional` is total only on specs whose name list is
non-empty with a non-empty first name; on any other input it raises a
`ValueError` (not an `AssemblingError`), and every spec produced by
signature inference (from non-empty parameter names, as Python
identifiers are) satisfies the precondition. -/
theorem claim_C10 :
    (∀ (args : List String) (pchars : String),
      args = [] ∨ args.headD "" = "" →
      _is_positional args pchars =
        Except.error (PyError.valueError "Expected at least one argument")) ∧
    (∀ (f : Func) (s : ArgSpec),
      (∀ n ∈ f.spec.args ++ f.spec.kwonlyargs, n ≠ "") →
      (∀ v, f.spec.varargs = some v → v ≠ "") →
      s ∈ _get_args_from_signature f →
      s.option_strings ≠ [] ∧ s.option_strings.headD "" ≠ "") := by
  constructor
  · intro args pchars h
    rw [_is_positional, if_pos h]
  · intro f s hargs hv hs
    by_cases he : f.expects_namespace_object = true
    · simp [_get_args_from_signature, he] at hs
    · simp only [Bool.not_eq_true] at he
      rw [_get_args_from_signature, if_neg (by simp [he])] at hs
      rw [List.mem_append] at hs
      rcases hs with hs | hs
      · obtain ⟨n, hn, rfl⟩ := List.mem_map.mp hs
        exact infer_one_wf (hargs n hn)
      · rcases hva : f.spec.varargs with _ | v
        · rw [hva] at hs
          simp at hs
        · rw [hva] at hs
          simp at hs
          subst hs
          refine ⟨by simp, ?_⟩
          simp only [List.headD_cons]
          exact hv v hva

theorem claim_C10_witness :
    _is_positional [] "-" =
      Except.error (PyError.valueError "Expected at least one argument") ∧
    ∀ s ∈ _get_args_from_signature
        { name := "cmd",
          spec := { args := ["foo", "fox"], defaults := [Value.vstr "x"],
                    varargs := some "rest" } },
      s.option_strings ≠ [] ∧ s.option_strings.headD "" ≠ "" := by
  constructor
  · exact claim_C10.1 [] "-" (Or.inl rfl)
  · intro s hs
    refine claim_C10.2 _ s (by decide) ?_ hs
    intro v hveq
    cases hveq
    decide

theorem inferred_all_positional (fname : String) (args : List String) (vk : Option String)
    (h : ∀ n ∈ args, n ≠ "" ∧ startswith_dash n = false) :
    _get_args_from_signature
      { name := fname, spec := { args := args, varkw := vk } } =
      args.map (fun n => { option_strings := [n] }) := by
  rw [_get_args_from_signature, if_neg (by simp)]
  simp only [List.append_nil]
  apply List.map_congr_left
  intro n hn
  have hsd : sig_default { args := args, varkw := vk } n = none := by
    simp [sig_default, assoc_lookup, List.zip_nil_right]
  rw [infer_one, if_neg (by simp [hsd])]
  simp [assoc_lookup, dashify_ident (h n hn).2]

/-- C4: a callable whose parameters are all positional (no defaults, no
keyword-only parameters, no variadic positional) and which has no explicit
declarations reconciles to exactly one positional entry per parameter, in
signature order; more generally the merge step keeps the inferred entries
at their positions (the merged key sequence extends the inferred one) and
never changes the positional/optional classification of an entry. -/
theorem claim_C4 :
    (∀ (fname : String) (args : List String) (vk : Option String),
      (∀ n ∈ args, n ≠ "" ∧ startswith_dash n = false) →
      set_default_command
        { name := fname, spec := { args := args, varkw := vk } } =
        Except.ok (args.map (fun n => { option_strings := [n] })) ∧
      ∀ s ∈ args.map (fun n => ({ option_strings := [n] } : ArgSpec)),
        _is_positional s.option_strings "-" = Except.ok true) ∧
    (∀ (fname : String) (vk : Bool) (l : List ArgSpec)
        (dests res : List (String × ArgSpec)),
      mergeDeclared fname vk dests l = Except.ok res →
      (∃ ext, res.map Prod.fst = dests.map Prod.fst ++ ext) ∧
      (∀ k a, odLookup dests k = some a → ∃ a2, odLookup res k = some a2 ∧
        _is_positional a2.option_strings "-" = _is_positional a.option_strings "-")) := by
  constructor
  · intro fname args vk h
    constructor
    · rw [sdc_no_declared rfl, inferred_all_positional fname args vk h]
      rw [List.map_map]
      apply congrArg
      apply List.map_congr_left
      intro n hn
      exact guess_eq_self_of_plain rfl rfl
    · intro s hs
      obtain ⟨n, hn, rfl⟩ := List.mem_map.mp hs
      exact is_positional_of_ident (h n hn).1 (h n hn).2
  · intro fname vk l dests res hm
    exact ⟨mergeDeclared_keys hm, mergeDeclared_preserves_class hm⟩

theorem claim_C4_witness :
    set_default_command { name := "cmd", spec := { args := ["foo", "bar"] } } =
      Except.ok [{ option_strings := ["foo"] }, { option_strings := ["bar"] }] ∧
    (∃ ext, ([("foo", ({ option_strings := ["foo"] } : ArgSpec))].map Prod.fst) =
      [("foo", ({ option_strings := ["foo"] } : ArgSpec))].map Prod.fst ++ ext) := by
  constructor
  · exact ((claim_C4.1 "cmd" ["foo", "bar"] none (by decide)).1).trans (by decide)
  · exact (claim_C4.2 "cmd" true [] _ _ rfl).1
theorem char_contains_iff_mem (l : List Char) (c : Char) :
    l.contains c = true ↔ c ∈ l := by
  simp

theorem lt_length_of_getElem? {α : Type} {l : List α} {i : Nat} {a : α}
    (h : l[i]? = some a) : i < l.length :=
  (List.getElem?_eq_some.mp h).1

theorem two_le_count_of_getElem?_pair {l : List Char} {c : Char} :
    ∀ {i j : Nat}, i ≠ j → l[i]? = some c → l[j]? = some c → 2 ≤ l.count c := by
  induction l with
  | nil =>
    intro i j hij hi hj
    simp at hi
  | cons a t ih =>
    intro i j hij hi hj
    cases i with
    | zero =>
      cases j with
      | zero => exact absurd rfl hij
      | succ j1 =>
        simp only [List.getElem?_cons_zero, Option.some.injEq] at hi
        subst hi
        have hmem : a ∈ t := List.getElem?_mem (by simpa using hj)
        have hpos : 0 < t.count a := List.count_pos_iff.mpr hmem
        rw [List.count_cons_self]
        omega
    | succ i1 =>
      cases j with
      | zero =>
        simp only [List.getElem?_cons_zero, Option.some.injEq] at hj
        subst hj
        have hmem : a ∈ t := List.getElem?_mem (by simpa using hi)
        have hpos : 0 < t.count a := List.count_pos_iff.mpr hmem
        rw [List.count_cons_self]
        omega
      | succ j1 =>
        have h2 : 2 ≤ t.count c :=
          ih (fun hh => hij (congrArg Nat.succ hh)) (by simpa using hi) (by simpa using hj)
        have hle : t.count c ≤ (a :: t).count c :=
          List.Sublist.count_le (List.sublist_cons_self a t) c
        omega

theorem conflicting_contains_iff {spec : FuncSpec} {c : Char}
    (hmem : c ∈ sig_first_chars spec) :
    (conflicting_opts spec).contains c = true ↔
      1 < (sig_first_chars spec).count c := by
  rw [conflicting_opts, char_contains_iff_mem, List.mem_filter]
  constructor
  · intro h
    simpa using h.2
  · intro h
    exact ⟨hmem, by simpa using h⟩

theorem startswith_dash_mk_dashes (name : String) :
    startswith_dash (String.mk ['-', '-'] ++ name) = true := by
  rw [startswith_dash, mk_append_data]
  rfl

theorem dashify_long (name : String) :
    dashify (String.mk ['-', '-'] ++ name) =
      underscores_to_dashes (String.mk ['-', '-'] ++ name) := by
  rw [dashify, if_pos (startswith_dash_mk_dashes name)]

theorem dashify_short_u2d (c : Char) :
    dashify (String.mk ['-', c]) = underscores_to_dashes (String.mk ['-', c]) := by
  rw [dashify, if_pos (by rw [startswith_dash]; rfl)]

/-- C5 (amended): for a flag-style parameter the inferred candidate names
are the short form (a dash plus the first letter, with the line-106
underscore-to-hyphen rewrite applied to it as to every flag, so a name
whose first letter is an underscore gets the short form of two dashes)
and the long form (two dashes plus the name, underscores turned into
hyphens), and the short form is suppressed exactly when the first letter
of the parameter occurs more than once among the first letters of ALL
parameters (positional ones included — not just flag-style ones as the
claim stated), case-sensitively; consequently two parameters that both
keep a short form have distinct first letters and, when neither first
letter is itself a dash (true of any Python identifier), distinct short
flags — no two inferred specs carry the same short flag. -/
theorem claim_C5 :
    (∀ (f : Func) (i : Nat) (name : String),
      f.expects_namespace_object = false →
      (f.spec.args ++ f.spec.kwonlyargs)[i]? = some name →
      ((sig_default f.spec name).isSome ∨ name ∈ f.spec.kwonlyargs) →
      (_get_args_from_signature f)[i]? = some (infer_one f name) ∧
      (infer_one f name).option_strings =
        (if 1 < (sig_first_chars f.spec).count (first_char name) then
          [underscores_to_dashes (String.mk ['-', '-'] ++ name)]
        else
          [underscores_to_dashes (String.mk ['-', first_char name]),
           underscores_to_dashes (String.mk ['-', '-'] ++ name)])) ∧
    (∀ (f : Func) (i j : Nat) (namei namej : String),
      i ≠ j →
      (f.spec.args ++ f.spec.kwonlyargs)[i]? = some namei →
      (f.spec.args ++ f.spec.kwonlyargs)[j]? = some namej →
      ¬ 1 < (sig_first_chars f.spec).count (first_char namei) →
      first_char namei ≠ first_char namej ∧
      (first_char namei ≠ '-' → first_char namej ≠ '-' →
        underscores_to_dashes (String.mk ['-', first_char namei]) ≠
          underscores_to_dashes (String.mk ['-', first_char namej]))) := by
  constructor
  · intro f i name hexp hi hflag
    have hmemchars : first_char name ∈ sig_first_chars f.spec := by
      have hchars : (sig_first_chars f.spec)[i]? = some (first_char name) := by
        rw [sig_first_chars, List.getElem?_map, hi]
        rfl
      exact List.getElem?_mem hchars
    constructor
    · rw [_get_args_from_signature, if_neg (by simp [hexp])]
      have hlen : i < ((f.spec.args ++ f.spec.kwonlyargs).map (infer_one f)).length := by
        rw [List.length_map]
        exact lt_length_of_getElem? hi
      rw [List.getElem?_append, if_pos hlen, List.getElem?_map, hi]
      rfl
    · rw [infer_one, if_pos hflag]
      by_cases hcount : 1 < (sig_first_chars f.spec).count (first_char name)
      · have hc : (conflicting_opts f.spec).contains (first_char name) = true :=
          (conflicting_contains_iff hmemchars).mpr hcount
        rw [if_pos hc, if_pos hcount]
        simp only [List.map]
        rw [dashify_long]
      · have hc : (conflicting_opts f.spec).contains (first_char name) = false := by
          cases hcc : (conflicting_opts f.spec).contains (first_char name)
          · rfl
          · exact absurd ((conflicting_contains_iff hmemchars).mp hcc) hcount
        rw [if_neg (by rw [hc]; simp), if_neg hcount]
        simp only [List.map]
        rw [dashify_long, dashify_short_u2d]
  · intro f i j namei namej hij hi hj hcount
    have hne : first_char namei ≠ first_char namej := by
      intro heq
      apply hcount
      have hci : (sig_first_chars f.spec)[i]? = some (first_char namei) := by
        rw [sig_first_chars, List.getElem?_map, hi]
        rfl
      have hcj : (sig_first_chars f.spec)[j]? = some (first_char namei) := by
        rw [sig_first_chars, List.getElem?_map, hj, heq]
        rfl
      have h2 := two_le_count_of_getElem?_pair hij hci hcj
      omega
    refine ⟨hne, ?_⟩
    intro hdi hdj heqs
    apply hne
    have hdata : (['-', if first_char namei = '_' then '-' else first_char namei] :
        List Char) =
        ['-', if first_char namej = '_' then '-' else first_char namej] :=
      congrArg String.data heqs
    have hchar : (if first_char namei = '_' then '-' else first_char namei) =
        (if first_char namej = '_' then '-' else first_char namej) :=
      congrArg (fun l => l.getD 1 'A') hdata
    by_cases hci : first_char namei = '_'
    · rw [if_pos hci] at hchar
      by_cases hcj : first_char namej = '_'
      · rw [hci, hcj]
      · rw [if_neg hcj] at hchar
        exact absurd hchar.symm hdj
    · rw [if_neg hci] at hchar
      by_cases hcj : first_char namej = '_'
      · rw [if_pos hcj] at hchar
        exact absurd hchar hdi
      · rw [if_neg hcj] at hchar
        exact hchar

theorem claim_C5_witness :
    (_get_args_from_signature
      { name := "cmd",
        spec := { args := ["alpha", "beta"],
                  defaults := [Value.vint 1, Value.vint 2] } })[0]? =
      some (infer_one
        { name := "cmd",
          spec := { args := ["alpha", "beta"],
                    defaults := [Value.vint 1, Value.vint 2] } } "alpha") ∧
    (infer_one
      { name := "cmd",
        spec := { args := ["alpha", "beta"],
                  defaults := [Value.vint 1, Value.vint 2] } } "alpha").option_strings =
      ["-a", "--alpha"] ∧
    (infer_one
      { name := "cmd",
        spec := { args := ["_foo"], defaults := [Value.vint 1] } } "_foo").option_strings =
      ["--", "---foo"] ∧
    first_char "foo" ≠ first_char "box" ∧
    underscores_to_dashes (String.mk ['-', first_char "foo"]) ≠
      underscores_to_dashes (String.mk ['-', first_char "box"]) := by
  have h := claim_C5.1
    { name := "cmd",
      spec := { args := ["alpha", "beta"], defaults := [Value.vint 1, Value.vint 2] } }
    0 "alpha" rfl (by decide) (by decide)
  have h2 := claim_C5.1
    { name := "cmd", spec := { args := ["_foo"], defaults := [Value.vint 1] } }
    0 "_foo" rfl (by decide) (by decide)
  have h3 := claim_C5.2
    { name := "cmd", spec := { args := ["foo", "box"] } }
    0 1 "foo" "box" (by decide) (by decide) (by decide) (by decide)
  exact ⟨h.1, h.2.trans (by decide), h2.2.trans (by decide), h3.1,
    h3.2 (by decide) (by decide)⟩

/-- C5 counterexample: in `def cmd(foo, fox="x")` the only flag-style
parameter is fox, so under the conflict set of the claim (flag-style names
only) fox would keep its short form -f; but the code computes the
conflict set over ALL parameter first letters, foo collides with fox,
and the inferred spec for fox carries only the long form --fox. -/
theorem claim_C5_cex :
    (_get_args_from_signature
      { name := "cmd",
        spec := { args := ["foo", "fox"], defaults := [Value.vstr "x"] } }).map
        (fun a => a.option_strings) = [["foo"], ["--fox"]] ∧
    sig_first_chars { args := ["foo", "fox"], defaults := [Value.vstr "x"] } = ['f', 'f'] ∧
    (sig_default { args := ["foo", "fox"], defaults := [Value.vstr "x"] } "foo").isSome = false ∧
    (sig_default { args := ["foo", "fox"], defaults := [Value.vstr "x"] } "fox").isSome = true := by
  refine ⟨by decide, by decide, by decide, by decide⟩
